import Mathlib

/-!
A shallow embedding of the `imaging` library core (pixel scanner, Gaussian
blur / sharpen convolution engine, EXIF orientation parser, decode pipeline),
translated from the Go sources (`interface.go`, `effects.go`, `io.go` and the
scanner file).  Go machine integers are modelled as `Nat`/`Int` with explicit
`% 2^w` where overflow can occur; `float64` arithmetic is idealised over an
arbitrary linear ordered field (instantiated at `ℚ` for executable witnesses
and at `ℝ` for the Gaussian kernel, which uses `exp`/`sqrt`/`π`).  Go slices
are modelled as `List ℕ` read through a total accessor returning 0 out of
range.  The `parallel` scheduler partitions an index range across workers
that write disjoint regions of the destination, so it is modelled as a plain
iteration over the full range.
-/

namespace Imaging

/-- Read a byte from a pixel slice; Go code only indexes in range, the
default 0 makes the model total. -/
def byteAt (l : List ℕ) (i : ℕ) : ℕ := l.getD i 0

/-- Read a byte at a (possibly negative) integer index. -/
def byteAtZ (l : List ℕ) (i : ℤ) : ℕ := if i < 0 then 0 else l.getD i.toNat 0

/-- Go `image.NRGBA`: 8-bit non-premultiplied RGBA.  `minX`/`minY` are
`Rect.Min`, `w`/`h` are `Rect.Dx()`/`Rect.Dy()`. -/
structure NRGBA where
  minX : ℤ
  minY : ℤ
  w : ℕ
  h : ℕ
  stride : ℕ
  pix : List ℕ
deriving DecidableEq

/-- Go `image.NRGBA64`: 16-bit non-premultiplied RGBA, big-endian byte pairs. -/
structure NRGBA64 where
  minX : ℤ
  minY : ℤ
  w : ℕ
  h : ℕ
  stride : ℕ
  pix : List ℕ
deriving DecidableEq

/-- Go `image.RGBA`: 8-bit premultiplied RGBA. -/
structure RGBA where
  minX : ℤ
  minY : ℤ
  w : ℕ
  h : ℕ
  stride : ℕ
  pix : List ℕ
deriving DecidableEq

/-- Go `image.RGBA64`: 16-bit premultiplied RGBA, big-endian byte pairs. -/
structure RGBA64 where
  minX : ℤ
  minY : ℤ
  w : ℕ
  h : ℕ
  stride : ℕ
  pix : List ℕ
deriving DecidableEq

/-- Go `image.Gray`: 8-bit grayscale. -/
structure Gray where
  minX : ℤ
  minY : ℤ
  w : ℕ
  h : ℕ
  stride : ℕ
  pix : List ℕ
deriving DecidableEq

/-- Go `image.Gray16`: 16-bit grayscale, big-endian byte pairs. -/
structure Gray16 where
  minX : ℤ
  minY : ℤ
  w : ℕ
  h : ℕ
  stride : ℕ
  pix : List ℕ
deriving DecidableEq

/-- Go `image.YCbCrSubsampleRatio` (all six values). -/
inductive Subsample where
  | s444
  | s422
  | s420
  | s440
  | s410
  | s411
deriving DecidableEq

/-- Go `image.YCbCr`: planar luma/chroma with a subsampling ratio. -/
structure YCbCr where
  minX : ℤ
  minY : ℤ
  w : ℕ
  h : ℕ
  yStride : ℕ
  cStride : ℕ
  yPlane : List ℕ
  cbPlane : List ℕ
  crPlane : List ℕ
  ratio : Subsample
deriving DecidableEq

/-- A `color.NRGBA` value, as stored in the converted palette of the scanner. -/
structure NColor where
  r : ℕ
  g : ℕ
  b : ℕ
  a : ℕ
deriving DecidableEq

/-- Go `image.Paletted` together with the palette already converted to
`color.NRGBA` entries by `newScanner` (the `color.NRGBAModel` conversion is
the identity on entries that are already `color.NRGBA`, so the entries are
arbitrary NRGBA colors). -/
structure Paletted where
  minX : ℤ
  minY : ℤ
  w : ℕ
  h : ℕ
  stride : ℕ
  pix : List ℕ
  palette : List NColor
deriving DecidableEq

/-- A 16-bit premultiplied color as returned by the Go `Color.RGBA()` method. -/
structure Color16 where
  r : ℕ
  g : ℕ
  b : ℕ
  a : ℕ
deriving DecidableEq

/-- An arbitrary `image.Image` outside the known layouts: dimensions plus the
per-pixel query `At(x, y).RGBA()` at absolute coordinates. -/
structure Generic where
  minX : ℤ
  minY : ℤ
  w : ℕ
  h : ℕ
  atFn : ℤ → ℤ → Color16

/-- The closed set of source layouts the scanner dispatches over
(the type switch of `scanner.scan`), plus the generic fallback. -/
inductive Source where
  | nrgba : NRGBA → Source
  | nrgba64 : NRGBA64 → Source
  | rgba : RGBA → Source
  | rgba64 : RGBA64 → Source
  | gray : Gray → Source
  | gray16 : Gray16 → Source
  | ycbcr : YCbCr → Source
  | paletted : Paletted → Source
  | generic : Generic → Source

/-- Field `s.w` of `newScanner`: `s.w = img.Bounds().Dx()`. -/
def srcW : Source → ℕ
  | .nrgba img => img.w
  | .nrgba64 img => img.w
  | .rgba img => img.w
  | .rgba64 img => img.w
  | .gray img => img.w
  | .gray16 img => img.w
  | .ycbcr img => img.w
  | .paletted img => img.w
  | .generic img => img.w

/-- Field `s.h` of `newScanner`: `s.h = img.Bounds().Dy()`. -/
def srcH : Source → ℕ
  | .nrgba img => img.h
  | .nrgba64 img => img.h
  | .rgba img => img.h
  | .rgba64 img => img.h
  | .gray img => img.h
  | .gray16 img => img.h
  | .ycbcr img => img.h
  | .paletted img => img.h
  | .generic img => img.h

/-- The `Bounds().Min.X` of a source. -/
def srcMinX : Source → ℤ
  | .nrgba img => img.minX
  | .nrgba64 img => img.minX
  | .rgba img => img.minX
  | .rgba64 img => img.minX
  | .gray img => img.minX
  | .gray16 img => img.minX
  | .ycbcr img => img.minX
  | .paletted img => img.minX
  | .generic img => img.minX

/-- The `Bounds().Min.Y` of a source. -/
def srcMinY : Source → ℤ
  | .nrgba img => img.minY
  | .nrgba64 img => img.minY
  | .rgba img => img.minY
  | .rgba64 img => img.minY
  | .gray img => img.minY
  | .gray16 img => img.minY
  | .ycbcr img => img.minY
  | .paletted img => img.minY
  | .generic img => img.minY

/-- Embeds `scanner.scanNRGBA`: per destination row, copy `size = (x2-x1)*4` bytes
starting at `y*Stride + x1*4`.  The Go `size == 4` fast path moves the same
four bytes as the general `copy` path, so both are embedded as one slice
copy. -/
def scanNRGBA (img : NRGBA) (x1 y1 x2 y2 : ℕ) : List ℕ :=
  (List.range' y1 (y2 - y1)).flatMap fun y =>
    (img.pix.drop (y * img.stride + x1 * 4)).take ((x2 - x1) * 4)

/-- One destination pixel of `scanner.scanNRGBA64`: take the high byte of
each big-endian 16-bit channel. -/
def scanNRGBA64Pixel (img : NRGBA64) (x y : ℕ) : List ℕ :=
  let i := y * img.stride + x * 8
  [byteAt img.pix i, byteAt img.pix (i + 2), byteAt img.pix (i + 4), byteAt img.pix (i + 6)]

/-- Embeds `scanner.scanNRGBA64`. -/
def scanNRGBA64 (img : NRGBA64) (x1 y1 x2 y2 : ℕ) : List ℕ :=
  (List.range' y1 (y2 - y1)).flatMap fun y =>
    (List.range' x1 (x2 - x1)).flatMap fun x => scanNRGBA64Pixel img x y

/-- One destination pixel of `scanner.scanRGBA` (premultiplied 8-bit):
branch on alpha; the unpremultiply is `uint8(r16 * 0xff / a16)` — the
`uint16` product and quotient are exact `Nat` arithmetic
(`255 * 255 < 2^16`), and the `uint8` conversion narrows the quotient
`% 256` (observable when a channel byte exceeds the alpha byte). -/
def scanRGBAPixel (img : RGBA) (x y : ℕ) : List ℕ :=
  let i := y * img.stride + x * 4
  let a := byteAt img.pix (i + 3)
  if a = 0 then
    [0, 0, 0, a]
  else if a = 255 then
    [byteAt img.pix i, byteAt img.pix (i + 1), byteAt img.pix (i + 2), a]
  else
    [byteAt img.pix i * 255 / a % 256, byteAt img.pix (i + 1) * 255 / a % 256,
      byteAt img.pix (i + 2) * 255 / a % 256, a]

/-- Embeds `scanner.scanRGBA`. -/
def scanRGBA (img : RGBA) (x1 y1 x2 y2 : ℕ) : List ℕ :=
  (List.range' y1 (y2 - y1)).flatMap fun y =>
    (List.range' x1 (x2 - x1)).flatMap fun x => scanRGBAPixel img x y

/-- One destination pixel of `scanner.scanRGBA64` (premultiplied 16-bit):
branch on the high alpha byte; `uint8((r32 * 0xffff / a32) >> 8)` is `Nat`
arithmetic (no `uint32` overflow since `0xffff * 0xffff < 2^32`) with a
final `% 256` for the `uint8` conversion. -/
def scanRGBA64Pixel (img : RGBA64) (x y : ℕ) : List ℕ :=
  let i := y * img.stride + x * 8
  let a := byteAt img.pix (i + 6)
  if a = 0 then
    [0, 0, 0, a]
  else if a = 255 then
    [byteAt img.pix i, byteAt img.pix (i + 2), byteAt img.pix (i + 4), a]
  else
    let r32 := byteAt img.pix i * 256 + byteAt img.pix (i + 1)
    let g32 := byteAt img.pix (i + 2) * 256 + byteAt img.pix (i + 3)
    let b32 := byteAt img.pix (i + 4) * 256 + byteAt img.pix (i + 5)
    let a32 := byteAt img.pix (i + 6) * 256 + byteAt img.pix (i + 7)
    [r32 * 65535 / a32 / 256 % 256, g32 * 65535 / a32 / 256 % 256,
      b32 * 65535 / a32 / 256 % 256, a]

/-- Embeds `scanner.scanRGBA64`. -/
def scanRGBA64 (img : RGBA64) (x1 y1 x2 y2 : ℕ) : List ℕ :=
  (List.range' y1 (y2 - y1)).flatMap fun y =>
    (List.range' x1 (x2 - x1)).flatMap fun x => scanRGBA64Pixel img x y

/-- One destination pixel of `scanner.scanGray`. -/
def scanGrayPixel (img : Gray) (x y : ℕ) : List ℕ :=
  let c := byteAt img.pix (y * img.stride + x)
  [c, c, c, 255]

/-- Embeds `scanner.scanGray`. -/
def scanGray (img : Gray) (x1 y1 x2 y2 : ℕ) : List ℕ :=
  (List.range' y1 (y2 - y1)).flatMap fun y =>
    (List.range' x1 (x2 - x1)).flatMap fun x => scanGrayPixel img x y

/-- One destination pixel of `scanner.scanGray16` (high byte only). -/
def scanGray16Pixel (img : Gray16) (x y : ℕ) : List ℕ :=
  let c := byteAt img.pix (y * img.stride + x * 2)
  [c, c, c, 255]

/-- Embeds `scanner.scanGray16`. -/
def scanGray16 (img : Gray16) (x1 y1 x2 y2 : ℕ) : List ℕ :=
  (List.range' y1 (y2 - y1)).flatMap fun y =>
    (List.range' x1 (x2 - x1)).flatMap fun x => scanGray16Pixel img x y

/-- The YCbCr channel clamp: Go tests `uint32(v)&0xff000000 == 0` (that is,
`0 ≤ v < 2^24` for an `int32` value) and then shifts right by 16 (the
division is only reached for nonnegative `v`, where every integer division
agrees with the arithmetic shift), otherwise stores `uint8(^(v >> 31))`,
which is 0 for negative `v` and 255 for overflowing positive `v`. -/
def ycbcrClamp (v : ℤ) : ℕ :=
  if 0 ≤ v ∧ v < 16777216 then (v / 65536).toNat
  else if v < 0 then 0 else 255

/-- The Go `YCbCr.COffset` method.  Go integer division truncates toward
zero, which on `ℤ` is `Int.tdiv` (the Lean `/` on `ℤ` is Euclidean and
would differ at negative coordinates). -/
def cOffset (img : YCbCr) (x y : ℤ) : ℤ :=
  match img.ratio with
  | .s422 => (y - img.minY) * img.cStride + (Int.tdiv x 2 - Int.tdiv img.minX 2)
  | .s420 => (Int.tdiv y 2 - Int.tdiv img.minY 2) * img.cStride
      + (Int.tdiv x 2 - Int.tdiv img.minX 2)
  | .s440 => (y - img.minY) * img.cStride + (x - img.minX)
  | .s411 => (y - img.minY) * img.cStride + (Int.tdiv x 4 - Int.tdiv img.minX 4)
  | .s410 => (Int.tdiv y 2 - Int.tdiv img.minY 2) * img.cStride
      + (Int.tdiv x 4 - Int.tdiv img.minX 4)
  | .s444 => (y - img.minY) * img.cStride + (x - img.minX)

/-- One destination pixel of `scanner.scanYCbCr` at local coordinates
`(xl, yl)` (the Go code shifts to absolute coordinates `x = xl + Rect.Min.X`,
`y = yl + Rect.Min.Y`; `iy` reduces to `yl*YStride + xl`).  The coordinate
halvings use `Int.tdiv`, Go truncating division (the Lean `/` on `ℤ` is
Euclidean and would pick a different chroma sample at negative
`Rect.Min`). -/
def scanYCbCrPixel (img : YCbCr) (xl yl : ℕ) : List ℕ :=
  let x : ℤ := xl + img.minX
  let y : ℤ := yl + img.minY
  let hy : ℤ := Int.tdiv img.minY 2
  let hx : ℤ := Int.tdiv img.minX 2
  let yBase : ℤ :=
    match img.ratio with
    | .s444 => (y - img.minY) * img.cStride
    | .s422 => (y - img.minY) * img.cStride
    | .s420 => (Int.tdiv y 2 - hy) * img.cStride
    | .s440 => (Int.tdiv y 2 - hy) * img.cStride
    | _ => 0
  let ic : ℤ :=
    match img.ratio with
    | .s444 => yBase + (x - img.minX)
    | .s440 => yBase + (x - img.minX)
    | .s422 => yBase + (Int.tdiv x 2 - hx)
    | .s420 => yBase + (Int.tdiv x 2 - hx)
    | _ => cOffset img x y
  let iy : ℕ := yl * img.yStride + xl
  let yy1 : ℤ := byteAt img.yPlane iy * 65793
  let cb1 : ℤ := byteAtZ img.cbPlane ic - 128
  let cr1 : ℤ := byteAtZ img.crPlane ic - 128
  [ycbcrClamp (yy1 + 91881 * cr1),
    ycbcrClamp (yy1 - 22554 * cb1 - 46802 * cr1),
    ycbcrClamp (yy1 + 116130 * cb1), 255]

/-- Embeds `scanner.scanYCbCr`. -/
def scanYCbCr (img : YCbCr) (x1 y1 x2 y2 : ℕ) : List ℕ :=
  (List.range' y1 (y2 - y1)).flatMap fun yl =>
    (List.range' x1 (x2 - x1)).flatMap fun xl => scanYCbCrPixel img xl yl

/-- One destination pixel of `scanner.scanPaletted`. -/
def scanPalettedPixel (img : Paletted) (x y : ℕ) : List ℕ :=
  let c := img.palette.getD (byteAt img.pix (y * img.stride + x)) ⟨0, 0, 0, 0⟩
  [c.r, c.g, c.b, c.a]

/-- Embeds `scanner.scanPaletted`. -/
def scanPaletted (img : Paletted) (x1 y1 x2 y2 : ℕ) : List ℕ :=
  (List.range' y1 (y2 - y1)).flatMap fun y =>
    (List.range' x1 (x2 - x1)).flatMap fun x => scanPalettedPixel img x y

/-- One destination pixel of `scanner.scanDefault`: query
`At(x, y).RGBA()` at absolute coordinates and branch on the 16-bit alpha.
`uint32` products carry an explicit `% 2^32`; `uint8` conversions carry
`% 256`. -/
def scanDefaultPixel (img : Generic) (xl yl : ℕ) : List ℕ :=
  let c := img.atFn (xl + img.minX) (yl + img.minY)
  if c.a = 65535 then
    [c.r / 256 % 256, c.g / 256 % 256, c.b / 256 % 256, 255]
  else if c.a = 0 then
    [0, 0, 0, 0]
  else
    [c.r * 65535 % 4294967296 / c.a / 256 % 256,
      c.g * 65535 % 4294967296 / c.a / 256 % 256,
      c.b * 65535 % 4294967296 / c.a / 256 % 256, c.a / 256 % 256]

/-- Embeds `scanner.scanDefault`. -/
def scanDefault (img : Generic) (x1 y1 x2 y2 : ℕ) : List ℕ :=
  (List.range' y1 (y2 - y1)).flatMap fun yl =>
    (List.range' x1 (x2 - x1)).flatMap fun xl => scanDefaultPixel img xl yl

/-- Embeds `scanner.scan`: dispatch over the concrete layout of the source.  The
destination buffer is returned rather than written in place. -/
def scan (src : Source) (x1 y1 x2 y2 : ℕ) : List ℕ :=
  match src with
  | .nrgba img => scanNRGBA img x1 y1 x2 y2
  | .nrgba64 img => scanNRGBA64 img x1 y1 x2 y2
  | .rgba img => scanRGBA img x1 y1 x2 y2
  | .rgba64 img => scanRGBA64 img x1 y1 x2 y2
  | .gray img => scanGray img x1 y1 x2 y2
  | .gray16 img => scanGray16 img x1 y1 x2 y2
  | .ycbcr img => scanYCbCr img x1 y1 x2 y2
  | .paletted img => scanPaletted img x1 y1 x2 y2
  | .generic img => scanDefault img x1 y1 x2 y2

/-- Modelled from the spec: the repository helper `absint` (not under
`src/`) is the absolute value of a machine integer. -/
def absint (x : ℤ) : ℕ := x.natAbs

/-- Modelled from the spec: the repository float→byte helper `clamp` (not
under `src/`) converts an accumulated value to a byte, rounding to nearest
and saturating to `[0, 255]`. -/
def clamp {α : Type} [LinearOrderedField α] [FloorRing α] [DecidableEq α] (x : α) : ℕ :=
  (min 255 (max 0 (Int.floor (x + 1 / 2)))).toNat

/-- One destination pixel of a 1-D blur pass over a scanned line of `n`
pixels, at position `pos` (`x` in `blurHorizontal`, `y` in `blurVertical`):
neighbor offsets are clamped to `[0, n-1]` (`min`/`max` in the Go code, here
`lo`/`hi`), `wsum` sums kernel weights over the included neighbors only, the
color sums weight each channel by `weight * alpha`, and a pixel whose
accumulated alpha is zero is left at the zero value `NewNRGBA` initialised
(the Go code only writes `dst.Pix` when `a != 0`). -/
def blurLinePixel {α : Type} [LinearOrderedField α] [FloorRing α] [DecidableEq α]
    (kernel : List α) (line : List ℕ) (n pos : ℕ) : List ℕ :=
  let radius := kernel.length - 1
  let lo := pos - radius
  let hi := min (pos + radius) (n - 1)
  let idxs := List.range' lo (hi + 1 - lo)
  let weight : ℕ → α := fun ix => kernel.getD (absint ((pos : ℤ) - (ix : ℤ))) 0
  let wsum : α := (idxs.map fun ix => weight ix).sum
  let a : α := (idxs.map fun ix => (byteAt line (ix * 4 + 3) : α) * weight ix).sum
  let r : α :=
    (idxs.map fun ix => (byteAt line (ix * 4) : α) * ((byteAt line (ix * 4 + 3) : α) * weight ix)).sum
  let g : α :=
    (idxs.map fun ix => (byteAt line (ix * 4 + 1) : α) * ((byteAt line (ix * 4 + 3) : α) * weight ix)).sum
  let b : α :=
    (idxs.map fun ix => (byteAt line (ix * 4 + 2) : α) * ((byteAt line (ix * 4 + 3) : α) * weight ix)).sum
  if a = 0 then [0, 0, 0, 0]
  else [clamp (r * (1 / a)), clamp (g * (1 / a)), clamp (b * (1 / a)), clamp (a / wsum)]

/-- Embeds `blurHorizontal`: scan each source row into a line, blur along `x`; the
destination is `NewNRGBA(Rect(0, 0, src.w, src.h))` (stride `4*w`), written
row-major.  The `parallel` scheduler workers write disjoint rows, so it is
modelled as iteration over all rows. -/
def blurHorizontal {α : Type} [LinearOrderedField α] [FloorRing α] [DecidableEq α]
    (src : Source) (kernel : List α) : NRGBA :=
  let w := srcW src
  let h := srcH src
  { minX := 0, minY := 0, w := w, h := h, stride := w * 4,
    pix := (List.range' 0 h).flatMap fun y =>
      (List.range' 0 w).flatMap fun x =>
        blurLinePixel kernel (scan src 0 y w (y + 1)) w x }

/-- Embeds `blurVertical`: scan each source column into a line, blur along `y`; the
Go workers walk columns but write the same row-major destination, whose pixel
`(x, y)` is the blur of column `x` at position `y`. -/
def blurVertical {α : Type} [LinearOrderedField α] [FloorRing α] [DecidableEq α]
    (src : Source) (kernel : List α) : NRGBA :=
  let w := srcW src
  let h := srcH src
  { minX := 0, minY := 0, w := w, h := h, stride := w * 4,
    pix := (List.range' 0 h).flatMap fun y =>
      (List.range' 0 w).flatMap fun x =>
        blurLinePixel kernel (scan src x 0 (x + 1) h) h y }

/-- Modelled from the spec: the repository function `Clone` (not under `src/`)
returns an exact copy of the input as a canonical NRGBA image anchored at
the origin (for an already-canonical NRGBA source this is a byte-identical
copy of its pixel buffer). -/
def Clone (img : Source) : NRGBA :=
  { minX := 0, minY := 0, w := srcW img, h := srcH img, stride := srcW img * 4,
    pix := scan img 0 0 (srcW img) (srcH img) }

/-- Embeds `gaussianBlurKernel` from `effects.go`. -/
noncomputable def gaussianBlurKernel (x sigma : ℝ) : ℝ :=
  Real.exp (-(x * x) / (2 * sigma * sigma)) / (sigma * Real.sqrt (2 * Real.pi))

/-- The kernel built by `Blur` for a positive sigma:
`radius = int(math.Ceil(sigma * 3.0))` and `kernel[i] = gaussianBlurKernel(i, sigma)`
for `i` in `[0, radius]`. -/
noncomputable def blurKernel (sigma : ℝ) : List ℝ :=
  let radius := (Int.ceil (sigma * 3)).toNat
  (List.range' 0 (radius + 1)).map fun i : ℕ => gaussianBlurKernel (i : ℝ) sigma

/-- Embeds `Blur` from `effects.go`: identity copy for `sigma ≤ 0`, otherwise the
separable passes sharing one kernel. -/
noncomputable def Blur (img : Source) (sigma : ℝ) : NRGBA :=
  if sigma ≤ 0 then Clone img
  else blurVertical (Source.nrgba (blurHorizontal img (blurKernel sigma))) (blurKernel sigma)

/-- One byte of the `Sharpen` unsharp mask:
`val := int(scanLine[i])<<1 - int(blurred.Pix[j])` clamped to `[0, 255]`. -/
def sharpenByte (s b : ℕ) : ℕ :=
  let val : ℤ := 2 * s - b
  if val < 0 then 0 else if val > 255 then 255 else val.toNat

/-- Embeds `Sharpen` from `effects.go`: identity copy for `sigma ≤ 0`, otherwise
`clamp(2*source_byte - blurred_byte)` for every canonical byte position
(`j = y*dst.Stride + i` with stride `4*w`, so byte `i` of row `y` pairs with
byte `y*(w*4) + i` of the blurred buffer). -/
noncomputable def Sharpen (img : Source) (sigma : ℝ) : NRGBA :=
  if sigma ≤ 0 then Clone img
  else
    let w := srcW img
    let h := srcH img
    let blurred := Blur img sigma
    { minX := 0, minY := 0, w := w, h := h, stride := w * 4,
      pix := (List.range' 0 h).flatMap fun y =>
        (List.range' 0 (w * 4)).map fun i =>
          sharpenByte (byteAt (scan img 0 y w (y + 1)) i) (byteAt blurred.pix (y * (w * 4) + i)) }

/-- EXIF byte order selected by the byte-order mark. -/
inductive ByteOrder where
  | be
  | le
deriving DecidableEq

/-- Embeds `binary.Read` of a `uint16` in big-endian order: two bytes or a short
read (`none`). -/
def readU16BE (s : List ℕ) : Option (ℕ × List ℕ) :=
  match s with
  | b0 :: b1 :: rest => some (b0 * 256 + b1, rest)
  | _ => none

/-- Embeds `binary.Read` of a `uint32` in big-endian order. -/
def readU32BE (s : List ℕ) : Option (ℕ × List ℕ) :=
  match s with
  | b0 :: b1 :: b2 :: b3 :: rest =>
    some (((b0 * 256 + b1) * 256 + b2) * 256 + b3, rest)
  | _ => none

/-- Embeds `binary.Read` of a `uint16` in the chosen byte order. -/
def readU16 (bo : ByteOrder) (s : List ℕ) : Option (ℕ × List ℕ) :=
  match s with
  | b0 :: b1 :: rest =>
    some (match bo with | .be => b0 * 256 + b1 | .le => b1 * 256 + b0, rest)
  | _ => none

/-- Embeds `binary.Read` of a `uint32` in the chosen byte order. -/
def readU32 (bo : ByteOrder) (s : List ℕ) : Option (ℕ × List ℕ) :=
  match s with
  | b0 :: b1 :: b2 :: b3 :: rest =>
    some (match bo with
      | .be => ((b0 * 256 + b1) * 256 + b2) * 256 + b3
      | .le => ((b3 * 256 + b2) * 256 + b1) * 256 + b0, rest)
  | _ => none

/-- Embeds `io.CopyN(io.Discard, r, n)`: skip `n` bytes, failing on a short
stream. -/
def skipN (n : ℕ) (s : List ℕ) : Option (List ℕ) :=
  if n ≤ s.length then some (s.drop n) else none

/-- The `Find JPEG APP1 marker` loop of `ReadOrientation`: read a marker and
a size (big-endian), require the upper byte of the marker to be `0xff`, stop at
`0xffe1`, otherwise require `size ≥ 2` and skip `size - 2` bytes.  The Go
loop is unbounded; here it recurses structurally on a fuel argument.  Every
iteration consumes at least 4 bytes of the stream, so with the stream length
as fuel (as `ReadOrientation` passes it) the fuel can only run out once the
stream is too short for the next read, where the Go loop returns the same
read error. -/
def findAPP1 : ℕ → List ℕ → Option (List ℕ)
  | 0, _ => none
  | k + 1, b0 :: b1 :: c0 :: c1 :: rest =>
    let marker := b0 * 256 + b1
    let size := c0 * 256 + c1
    if marker / 256 ≠ 255 then none
    else if marker = 65505 then some rest
    else if size < 2 then none
    else if size - 2 ≤ rest.length then findAPP1 k (rest.drop (size - 2)) else none
  | _ + 1, _ => none

/-- The `Find the orientation tag` loop of `ReadOrientation`: for each of
`numTags` records read a 2-byte id; skip 10 bytes on a mismatch; on a match
skip 6 bytes, read the 2-byte value and require it to be in `[1, 8]`. -/
def findOrientationTag (bo : ByteOrder) : ℕ → List ℕ → ℕ
  | 0, _ => 0
  | k + 1, s =>
    match readU16 bo s with
    | none => 0
    | some (tag, s1) =>
      if tag ≠ 274 then
        match skipN 10 s1 with
        | none => 0
        | some s2 => findOrientationTag bo k s2
      else
        match skipN 6 s1 with
        | none => 0
        | some s2 =>
          match readU16 bo s2 with
          | none => 0
          | some (val, _) => if val < 1 ∨ val > 8 then 0 else val

/-- Embeds `ReadOrientation` from `io.go`: a byte stream is a `List ℕ`; every error
of the Go code (short read or validity violation) collapses to the sentinel
0 (`OrientationUnspecified`), so the model is a total function — no error is
ever surfaced to the caller. -/
def ReadOrientation (stream : List ℕ) : ℕ :=
  match readU16BE stream with
  | none => 0
  | some (soi, s0) =>
    if soi ≠ 65496 then 0
    else
      match findAPP1 s0.length s0 with
      | none => 0
      | some s1 =>
        match readU32BE s1 with
        | none => 0
        | some (header, s2) =>
          if header ≠ 1165519206 then 0
          else
            match skipN 2 s2 with
            | none => 0
            | some s3 =>
              match readU16BE s3 with
              | none => 0
              | some (boTag, s4) =>
                match (if boTag = 19789 then some ByteOrder.be
                       else if boTag = 18761 then some ByteOrder.le else none) with
                | none => 0
                | some bo =>
                  match skipN 2 s4 with
                  | none => 0
                  | some s5 =>
                    match readU32 bo s5 with
                    | none => 0
                    | some (offset, s6) =>
                      if offset < 8 then 0
                      else
                        match skipN (offset - 8) s6 with
                        | none => 0
                        | some s7 =>
                          match readU16 bo s7 with
                          | none => 0
                          | some (numTags, s8) => findOrientationTag bo numTags s8

/-- The byte sequence of the valid orientation fixtures of the repository
(`testdata/orientation_v.jpg` as exercised by `TestReadOrientation`, and the
layout of spec §6): SOI, APP1 marker and size, `Exif\0\0`, big-endian mark,
format magic, IFD offset 8, one tag record with id `0x0112` and value `v`. -/
def orientFixture (v : ℕ) : List ℕ :=
  [255, 216, 255, 225, 0, 255, 69, 120, 105, 102, 0, 0,
    77, 77, 0, 42, 0, 0, 0, 8, 0, 1, 1, 18,
    0, 3, 0, 0, 0, 1, 0, v]

/-- Pixel accessor used by the spec-modelled
geometric transforms. -/
def pixelAt (img : NRGBA) (x y : ℕ) : List ℕ :=
  (img.pix.drop (y * img.stride + x * 4)).take 4

/-- Build a canonical NRGBA image from a per-pixel function. -/
def mkNRGBA (w h : ℕ) (f : ℕ → ℕ → List ℕ) : NRGBA :=
  { minX := 0, minY := 0, w := w, h := h, stride := w * 4,
    pix := (List.range' 0 h).flatMap fun y => (List.range' 0 w).flatMap fun x => f x y }

/-- Modelled from the spec: `FlipH` (not under `src/`) flips the image
horizontally. -/
def FlipH (img : NRGBA) : NRGBA :=
  mkNRGBA img.w img.h fun x y => pixelAt img (img.w - 1 - x) y

/-- Modelled from the spec: `FlipV` (not under `src/`) flips the image
vertically. -/
def FlipV (img : NRGBA) : NRGBA :=
  mkNRGBA img.w img.h fun x y => pixelAt img x (img.h - 1 - y)

/-- Modelled from the spec: `Rotate90` (not under `src/`) rotates the image
90 degrees clockwise. -/
def Rotate90 (img : NRGBA) : NRGBA :=
  mkNRGBA img.h img.w fun x y => pixelAt img y (img.h - 1 - x)

/-- Modelled from the spec: `Rotate180` (not under `src/`) rotates the image
180 degrees. -/
def Rotate180 (img : NRGBA) : NRGBA :=
  mkNRGBA img.w img.h fun x y => pixelAt img (img.w - 1 - x) (img.h - 1 - y)

/-- Modelled from the spec: `Rotate270` (not under `src/`) rotates the image
270 degrees clockwise. -/
def Rotate270 (img : NRGBA) : NRGBA :=
  mkNRGBA img.h img.w fun x y => pixelAt img (img.w - 1 - y) x

/-- Modelled from the spec: `Transpose` (not under `src/`) transposes the
image. -/
def Transpose (img : NRGBA) : NRGBA :=
  mkNRGBA img.h img.w fun x y => pixelAt img y x

/-- Modelled from the spec: `Transverse` (not under `src/`) flips the image
along its anti-diagonal. -/
def Transverse (img : NRGBA) : NRGBA :=
  mkNRGBA img.h img.w fun x y => pixelAt img (img.w - 1 - y) (img.h - 1 - x)

/-- Embeds `FixOrientation` from `io.go`: the orientation → transform dispatch;
values 0 and 1 (and anything else unrecognised) leave the image unchanged. -/
def FixOrientation (img : NRGBA) (o : ℕ) : NRGBA :=
  match o with
  | 1 => img
  | 2 => FlipH img
  | 4 => FlipV img
  | 8 => Rotate90 img
  | 3 => Rotate180 img
  | 6 => Rotate270 img
  | 5 => Transpose img
  | 7 => Transverse img
  | _ => img

/-- Embeds `decodeConfig` from `io.go`. -/
structure DecodeCfg where
  autoOrient : Bool
deriving DecidableEq

/-- Embeds `defaultDecodeConfig`: auto-orientation disabled. -/
def defaultDecodeCfg : DecodeCfg := ⟨false⟩

/-- A `DecodeOption` mutates the decode configuration. -/
def DecodeOpt : Type := DecodeCfg → DecodeCfg

/-- Embeds `AutoOrientation` from `io.go`. -/
def AutoOrientation (enabled : Bool) : DecodeOpt :=
  fun c => { c with autoOrient := enabled }

/-- Embeds `decodeWithAutoOrientation` from `io.go`: the tee pipeline feeds every
byte the decoder consumes to `ReadOrientation`; per spec §4.5 the decoder
consumes the entire stream in order before the tee closes, so the
orientation task observes exactly `stream`.  The external format decoder is
a parameter; `none` stands for a decode error, in which case the error is
returned and no transform is applied. -/
def decodeWithAutoOrientation (decoder : List ℕ → Option NRGBA)
    (stream : List ℕ) : Option NRGBA :=
  let orient := ReadOrientation stream
  match decoder stream with
  | none => none
  | some img => some (FixOrientation img orient)

/-- Embeds `Decode` from `io.go`: fold the options over the default configuration;
without auto-orientation the external decoder runs alone. -/
def Decode (decoder : List ℕ → Option NRGBA) (stream : List ℕ)
    (opts : List DecodeOpt) : Option NRGBA :=
  let cfg := opts.foldl (fun c o => o c) defaultDecodeCfg
  if cfg.autoOrient = false then decoder stream
  else decodeWithAutoOrientation decoder stream

/-- The canonical-buffer invariant of spec §3: every pixel (4-byte block)
whose alpha byte is 0 has its three color bytes equal to 0. -/
def alphaZeroClean (L : List ℕ) : Prop :=
  ∀ k, byteAt L (4 * k + 3) = 0 →
    byteAt L (4 * k) = 0 ∧ byteAt L (4 * k + 1) = 0 ∧ byteAt L (4 * k + 2) = 0

instance (L : List ℕ) : Decidable (alphaZeroClean L) := by
  unfold alphaZeroClean
  have : (∀ k < L.length, byteAt L (4 * k + 3) = 0 →
      byteAt L (4 * k) = 0 ∧ byteAt L (4 * k + 1) = 0 ∧ byteAt L (4 * k + 2) = 0) →
      ∀ k, byteAt L (4 * k + 3) = 0 →
        byteAt L (4 * k) = 0 ∧ byteAt L (4 * k + 1) = 0 ∧ byteAt L (4 * k + 2) = 0 := by
    intro h k ha
    by_cases hk : k < L.length
    · exact h k hk ha
    · exact ⟨List.getD_eq_default _ _ (by omega), List.getD_eq_default _ _ (by omega),
        List.getD_eq_default _ _ (by omega)⟩
  exact decidable_of_iff _ ⟨this, fun h k _ => h k⟩

/-- The `round(p / q)` of the spec on integers, written as the claim C5 states
it: rounding the exact quotient to the nearest integer. -/
def roundDiv (p q : ℕ) : ℕ := (2 * p + q) / (2 * q)

/-! Helper lemmas about extracting a pixel, a byte, or a row split from the
row-major buffers built by the scanner and the convolution engine. -/

theorem flatMap_length_const {g : ℕ → List ℕ} {c : ℕ} (hg : ∀ i, (g i).length = c) :
    ∀ l : List ℕ, (l.flatMap g).length = l.length * c := by
  intro l
  induction l with
  | nil => simp
  | cons a l ih =>
    simp [List.flatMap_cons, ih, hg a, Nat.succ_mul, Nat.add_comm]

theorem flatMap_range'_drop {g : ℕ → List ℕ} {c : ℕ} (hg : ∀ i, (g i).length = c) :
    ∀ (n s k : ℕ), k ≤ n →
      ((List.range' s n).flatMap g).drop (k * c) = (List.range' (s + k) (n - k)).flatMap g := by
  intro n
  induction n with
  | zero => intro s k hk; interval_cases k; simp
  | succ m ih =>
    intro s k hk
    cases k with
    | zero => simp
    | succ j =>
      rw [List.range'_succ, List.flatMap_cons]
      have hdrop : (g s ++ (List.range' (s + 1) m).flatMap g).drop ((j + 1) * c)
          = ((List.range' (s + 1) m).flatMap g).drop (j * c) := by
        have h1 : (j + 1) * c = c + j * c := by ring
        rw [h1, ← List.drop_drop, List.drop_left' (hg s)]
      have hjm : j ≤ m := by omega
      have e1 : s + 1 + j = s + (j + 1) := by omega
      have e2 : m - j = m + 1 - (j + 1) := by omega
      rw [hdrop, ih (s + 1) j hjm, e1, e2]

theorem flatMap_range'_byte {g : ℕ → List ℕ} {c : ℕ} (hg : ∀ i, (g i).length = c)
    (n s k i : ℕ) (hk : k < n) (hi : i < c) :
    byteAt ((List.range' s n).flatMap g) (k * c + i) = byteAt (g (s + k)) i := by
  have h1 : ((List.range' s n).flatMap g).drop (k * c) = (List.range' (s + k) (n - k)).flatMap g :=
    flatMap_range'_drop hg n s k (le_of_lt hk)
  have h2 : byteAt ((List.range' s n).flatMap g) (k * c + i)
      = byteAt (((List.range' s n).flatMap g).drop (k * c)) i := by
    simp [byteAt, List.getD_eq_getElem?_getD, List.getElem?_drop]
  rw [h2, h1]
  have h3 : n - k = (n - k - 1) + 1 := by omega
  rw [h3, List.range'_succ, List.flatMap_cons]
  exact List.getD_append _ _ _ _ (by rw [hg]; exact hi)

theorem flatMap_range'_chunk {g : ℕ → List ℕ} {c : ℕ} (hg : ∀ i, (g i).length = c)
    (n s k : ℕ) (hk : k < n) :
    (((List.range' s n).flatMap g).drop (k * c)).take c = g (s + k) := by
  rw [flatMap_range'_drop hg n s k (le_of_lt hk)]
  have h3 : n - k = (n - k - 1) + 1 := by omega
  rw [h3, List.range'_succ, List.flatMap_cons]
  exact List.take_left' (hg (s + k))

theorem pix_extract {g : ℕ → ℕ → List ℕ} (hg : ∀ x y, (g x y).length = 4)
    (x1 y1 w h x y : ℕ) (hx : x < w) (hy : y < h) :
    (((List.range' y1 h).flatMap fun j => (List.range' x1 w).flatMap fun i => g i j).drop
      ((y * w + x) * 4)).take 4 = g (x1 + x) (y1 + y) := by
  have hrow : ∀ j, ((List.range' x1 w).flatMap fun i => g i j).length = w * 4 :=
    fun j => flatMap_length_const (fun i => hg i j) _ |>.trans (by simp)
  have hsplit : (y * w + x) * 4 = y * (w * 4) + x * 4 := by ring
  rw [hsplit, ← List.drop_drop,
    flatMap_range'_drop hrow h y1 y (le_of_lt hy)]
  have h3 : h - y = (h - y - 1) + 1 := by omega
  rw [h3, List.range'_succ, List.flatMap_cons,
    List.drop_append_of_le_length (by rw [hrow]; exact Nat.mul_le_mul_right 4 (le_of_lt hx)),
    flatMap_range'_drop (fun i => hg i (y1 + y)) w x1 x (le_of_lt hx)]
  have h4 : w - x = (w - x - 1) + 1 := by omega
  rw [h4, List.range'_succ, List.flatMap_cons, List.append_assoc]
  exact List.take_left' (hg (x1 + x) (y1 + y))

theorem byte_extract {row : ℕ → List ℕ} {c : ℕ} (hc : ∀ j, (row j).length = c)
    (h y i : ℕ) (hy : y < h) (hi : i < c) :
    byteAt ((List.range' 0 h).flatMap row) (y * c + i) = byteAt (row y) i := by
  have := flatMap_range'_byte hc h 0 y i hy hi
  simpa using this

theorem flatMap_range'_split (f : ℕ → List ℕ) (h k : ℕ) (hk : k ≤ h) :
    (List.range' 0 h).flatMap f
      = (List.range' 0 k).flatMap f ++ (List.range' k (h - k)).flatMap f := by
  rw [← List.flatMap_append]
  congr 1
  have := List.range'_append 0 k (h - k) 1
  simp only [Nat.mul_one, Nat.zero_add, Nat.one_mul] at this
  rw [this]
  congr 1
  omega

theorem flatMap_take_drop (c : ℕ) :
    ∀ (n s : ℕ) (L : List ℕ),
      ((List.range' s n).flatMap fun y => (L.drop (y * c)).take c)
        = (L.drop (s * c)).take (n * c) := by
  intro n
  induction n with
  | zero => simp
  | succ m ih =>
    intro s L
    rw [List.range'_succ, List.flatMap_cons, ih (s + 1) L]
    have h1 : (m + 1) * c = c + m * c := by ring
    have h2 : L.drop ((s + 1) * c) = (L.drop (s * c)).drop c := by
      rw [List.drop_drop]
      congr 1
      ring
    rw [h1, List.take_add, h2]

theorem byteAt_append_lt {p L : List ℕ} {j : ℕ} (h : j < p.length) :
    byteAt (p ++ L) j = byteAt p j := List.getD_append _ _ _ _ h

theorem byteAt_append_ge {p L : List ℕ} {j : ℕ} (h : p.length ≤ j) :
    byteAt (p ++ L) j = byteAt L (j - p.length) := List.getD_append_right _ _ _ _ h

theorem alphaZeroClean_nil : alphaZeroClean [] := by
  intro k ha
  simp [byteAt]

theorem alphaZeroClean_append4 {p L : List ℕ} (hp : p.length = 4)
    (h0 : byteAt p 3 = 0 → byteAt p 0 = 0 ∧ byteAt p 1 = 0 ∧ byteAt p 2 = 0)
    (hL : alphaZeroClean L) : alphaZeroClean (p ++ L) := by
  intro k ha
  cases k with
  | zero =>
    simp only [Nat.mul_zero, Nat.zero_add] at ha ⊢
    rw [byteAt_append_lt (by omega)] at ha
    have h := h0 ha
    exact ⟨by rw [byteAt_append_lt (by omega)]; exact h.1,
      by rw [byteAt_append_lt (by omega)]; exact h.2.1,
      by rw [byteAt_append_lt (by omega)]; exact h.2.2⟩
  | succ j =>
    have key : ∀ i, byteAt (p ++ L) (4 * (j + 1) + i) = byteAt L (4 * j + i) := by
      intro i
      rw [byteAt_append_ge (by omega)]
      congr 1
      omega
    rw [key 3] at ha
    have h := hL j ha
    refine ⟨?_, ?_, ?_⟩
    · rw [show 4 * (j + 1) = 4 * (j + 1) + 0 by omega, key 0]
      exact h.1
    · rw [key 1]
      exact h.2.1
    · rw [key 2]
      exact h.2.2

theorem alphaZeroClean_flatMap {g : ℕ → List ℕ}
    (hg : ∀ i, (g i).length = 4)
    (hinv : ∀ i, byteAt (g i) 3 = 0 →
      byteAt (g i) 0 = 0 ∧ byteAt (g i) 1 = 0 ∧ byteAt (g i) 2 = 0)
    (l : List ℕ) : alphaZeroClean (l.flatMap g) := by
  induction l with
  | nil => exact alphaZeroClean_nil
  | cons a l ih =>
    rw [List.flatMap_cons]
    exact alphaZeroClean_append4 (hg a) (hinv a) ih

theorem alphaZeroClean_append_mul4 {p L : List ℕ} (m : ℕ) (hp : p.length = 4 * m)
    (h1 : alphaZeroClean p) (h2 : alphaZeroClean L) : alphaZeroClean (p ++ L) := by
  intro k ha
  by_cases hk : k < m
  · rw [byteAt_append_lt (by omega)] at ha
    have h := h1 k ha
    exact ⟨by rw [byteAt_append_lt (by omega)]; exact h.1,
      by rw [byteAt_append_lt (by omega)]; exact h.2.1,
      by rw [byteAt_append_lt (by omega)]; exact h.2.2⟩
  · have key : ∀ i, byteAt (p ++ L) (4 * k + i) = byteAt L (4 * (k - m) + i) := by
      intro i
      rw [byteAt_append_ge (by omega)]
      congr 1
      omega
    rw [key 3] at ha
    have h := h2 (k - m) ha
    refine ⟨?_, ?_, ?_⟩
    · rw [show 4 * k = 4 * k + 0 by omega, key 0]
      exact h.1
    · rw [key 1]
      exact h.2.1
    · rw [key 2]
      exact h.2.2

theorem alphaZeroClean_rows {row : ℕ → List ℕ} {c : ℕ}
    (hlen : ∀ y, (row y).length = 4 * c)
    (hrow : ∀ y, alphaZeroClean (row y)) (l : List ℕ) : alphaZeroClean (l.flatMap row) := by
  induction l with
  | nil => exact alphaZeroClean_nil
  | cons a l ih =>
    rw [List.flatMap_cons]
    exact alphaZeroClean_append_mul4 c (hlen a) (hrow a) ih

theorem scanRGBAPixel_length (img : RGBA) (x y : ℕ) : (scanRGBAPixel img x y).length = 4 := by
  unfold scanRGBAPixel
  dsimp only
  split_ifs <;> rfl

theorem scanRGBAPixel_alpha (img : RGBA) (x y : ℕ) :
    byteAt (scanRGBAPixel img x y) 3 = 0 →
      byteAt (scanRGBAPixel img x y) 0 = 0 ∧ byteAt (scanRGBAPixel img x y) 1 = 0 ∧
        byteAt (scanRGBAPixel img x y) 2 = 0 := by
  unfold scanRGBAPixel
  dsimp only
  split_ifs with h1 h2
  · intro _
    exact ⟨rfl, rfl, rfl⟩
  · intro hc
    simp only [byteAt, List.getD_eq_getElem?_getD] at hc h1
    simp at hc
    exact absurd hc h1
  · intro hc
    simp only [byteAt, List.getD_eq_getElem?_getD] at hc h1
    simp at hc
    exact absurd hc h1

theorem scanRGBA64Pixel_length (img : RGBA64) (x y : ℕ) :
    (scanRGBA64Pixel img x y).length = 4 := by
  unfold scanRGBA64Pixel
  dsimp only
  split_ifs <;> rfl

theorem scanRGBA64Pixel_alpha (img : RGBA64) (x y : ℕ) :
    byteAt (scanRGBA64Pixel img x y) 3 = 0 →
      byteAt (scanRGBA64Pixel img x y) 0 = 0 ∧ byteAt (scanRGBA64Pixel img x y) 1 = 0 ∧
        byteAt (scanRGBA64Pixel img x y) 2 = 0 := by
  unfold scanRGBA64Pixel
  dsimp only
  split_ifs with h1 h2
  · intro _
    exact ⟨rfl, rfl, rfl⟩
  · intro hc
    simp only [byteAt, List.getD_eq_getElem?_getD] at hc h1
    simp at hc
    exact absurd hc h1
  · intro hc
    simp only [byteAt, List.getD_eq_getElem?_getD] at hc h1
    simp at hc
    exact absurd hc h1

/-- C8: for every source layout handled by the dispatch (including the
generic fallback), `scan(source, 0,0,w,h)` equals the row-wise concatenation
of `scan(source, 0,0,w,h/2)` and `scan(source, 0,h/2,w,h)`, where `w`,`h`
are the scanner dimensions of the source. -/
theorem scan_tiling (src : Source) :
    scan src 0 0 (srcW src) (srcH src)
      = scan src 0 0 (srcW src) (srcH src / 2)
        ++ scan src 0 (srcH src / 2) (srcW src) (srcH src) := by
  cases src <;>
    · simp only [scan, scanNRGBA, scanNRGBA64, scanRGBA, scanRGBA64, scanGray, scanGray16,
        scanYCbCr, scanPaletted, scanDefault, Nat.sub_zero, srcW, srcH]
      exact flatMap_range'_split _ _ _ (Nat.div_le_self _ 2)

/-- C5 counterexample: the premultiplied 8-bit path divides with truncation,
not rounding: for the single pixel `(6, 0, 0, 7)` the red output is
`6*255/7 = 218` while `round(6*255/7) = 219`.  Moreover the `uint8`
conversion wraps the quotient: the pixel `(255, 0, 0, 1)` outputs
`65025 % 256 = 1`, not `round(255*255/1) = 65025`. -/
theorem scanRGBA_round_counterexample :
    scan (.rgba ⟨0, 0, 1, 1, 4, [6, 0, 0, 7]⟩) 0 0 1 1 = [218, 0, 0, 7]
      ∧ roundDiv (6 * 255) 7 = 219
      ∧ byteAt (scan (.rgba ⟨0, 0, 1, 1, 4, [6, 0, 0, 7]⟩) 0 0 1 1) 0 ≠ roundDiv (6 * 255) 7
      ∧ scan (.rgba ⟨0, 0, 1, 1, 4, [255, 0, 0, 1]⟩) 0 0 1 1 = [1, 0, 0, 1]
      ∧ roundDiv (255 * 255) 1 = 65025
      ∧ byteAt (scan (.rgba ⟨0, 0, 1, 1, 4, [255, 0, 0, 1]⟩) 0 0 1 1) 0
          ≠ roundDiv (255 * 255) 1 := by
  refine ⟨by decide, by decide, by decide, by decide, by decide, by decide⟩

/-- C5 (amended): for every premultiplied 8-bit source pixel, `scan`
branches on alpha — `a = 0` outputs `(0,0,0,0)`; `a = 255` copies the
channels directly; otherwise each output channel is
`floor(channel * 255 / alpha) % 256` (the truncating Go integer division
narrowed by the `uint8` conversion), not the rounded quotient. -/
theorem scanRGBA_pixel (img : RGBA) (x1 y1 x2 y2 x y : ℕ)
    (hx1 : x1 ≤ x) (hx2 : x < x2) (hy1 : y1 ≤ y) (hy2 : y < y2) :
    ((scan (.rgba img) x1 y1 x2 y2).drop (((y - y1) * (x2 - x1) + (x - x1)) * 4)).take 4
      = (let i := y * img.stride + x * 4
         let a := byteAt img.pix (i + 3)
         if a = 0 then [0, 0, 0, 0]
         else if a = 255 then
           [byteAt img.pix i, byteAt img.pix (i + 1), byteAt img.pix (i + 2), 255]
         else
           [byteAt img.pix i * 255 / a % 256, byteAt img.pix (i + 1) * 255 / a % 256,
             byteAt img.pix (i + 2) * 255 / a % 256, a]) := by
  have h := pix_extract (fun i j => scanRGBAPixel_length img i j)
    x1 y1 (x2 - x1) (y2 - y1) (x - x1) (y - y1) (by omega) (by omega)
  rw [show x1 + (x - x1) = x by omega, show y1 + (y - y1) = y by omega] at h
  show ((scanRGBA img x1 y1 x2 y2).drop (((y - y1) * (x2 - x1) + (x - x1)) * 4)).take 4 = _
  unfold scanRGBA
  rw [h]
  unfold scanRGBAPixel
  dsimp only
  split_ifs with h1 h2
  · rw [h1]
  · rw [h2]
  · rfl

/-- C5 amended witness at a concrete pixel. -/
theorem scanRGBA_pixel_witness :
    ((scan (.rgba ⟨0, 0, 1, 1, 4, [6, 0, 0, 7]⟩) 0 0 1 1).drop (((0 - 0) * (1 - 0) + (0 - 0)) * 4)).take 4
      = (let i := 0 * (4 : ℕ) + 0 * 4
         let a := byteAt [6, 0, 0, 7] (i + 3)
         if a = 0 then [0, 0, 0, 0]
         else if a = 255 then
           [byteAt [6, 0, 0, 7] i, byteAt [6, 0, 0, 7] (i + 1), byteAt [6, 0, 0, 7] (i + 2), 255]
         else
           [byteAt [6, 0, 0, 7] i * 255 / a % 256, byteAt [6, 0, 0, 7] (i + 1) * 255 / a % 256,
             byteAt [6, 0, 0, 7] (i + 2) * 255 / a % 256, a]) :=
  scanRGBA_pixel ⟨0, 0, 1, 1, 4, [6, 0, 0, 7]⟩ 0 0 1 1 0 0
    (by decide) (by decide) (by decide) (by decide)

/-- C7 counterexample: the canonical-buffer invariant (alpha = 0 implies
color channels 0) does not hold for every conversion path.  The NRGBA
direct-copy path passes the bytes `(5, 6, 7, 0)` through unchanged, and the
generic per-pixel-query path turns the valid premultiplied 16-bit color
`(100, 0, 0, 100)` into `(255, 0, 0, 0)` — alpha byte 0 with a nonzero
color byte in both cases. -/
theorem scan_alpha_residue_counterexample :
    (scan (.nrgba ⟨0, 0, 1, 1, 4, [5, 6, 7, 0]⟩) 0 0 1 1 = [5, 6, 7, 0]
      ∧ ¬ alphaZeroClean (scan (.nrgba ⟨0, 0, 1, 1, 4, [5, 6, 7, 0]⟩) 0 0 1 1))
    ∧ (scan (.generic ⟨0, 0, 1, 1, fun _ _ => ⟨100, 0, 0, 100⟩⟩) 0 0 1 1 = [255, 0, 0, 0]
      ∧ ¬ alphaZeroClean (scan (.generic ⟨0, 0, 1, 1, fun _ _ => ⟨100, 0, 0, 100⟩⟩) 0 0 1 1)) := by
  refine ⟨⟨by decide, by decide⟩, ⟨by rfl, ?_⟩⟩
  intro hcl
  have h := (hcl 0 rfl).1
  revert h
  decide

/-- C7 (amended): the alpha-zero-implies-color-zero invariant holds for the
premultiplied 8-bit (`scanRGBA`) and premultiplied 16-bit (`scanRGBA64`)
conversion paths, for every source image and scan rectangle. -/
theorem scan_alpha_clean_premultiplied (img8 : RGBA) (img16 : RGBA64) (x1 y1 x2 y2 : ℕ) :
    alphaZeroClean (scan (.rgba img8) x1 y1 x2 y2)
      ∧ alphaZeroClean (scan (.rgba64 img16) x1 y1 x2 y2) := by
  constructor
  · show alphaZeroClean (scanRGBA img8 x1 y1 x2 y2)
    unfold scanRGBA
    refine alphaZeroClean_rows (c := x2 - x1) (fun y => ?_)
      (fun y => alphaZeroClean_flatMap (fun i => scanRGBAPixel_length img8 i y)
        (fun i => scanRGBAPixel_alpha img8 i y) _) _
    rw [flatMap_length_const (fun i => scanRGBAPixel_length img8 i y)]
    simp [Nat.mul_comm]
  · show alphaZeroClean (scanRGBA64 img16 x1 y1 x2 y2)
    unfold scanRGBA64
    refine alphaZeroClean_rows (c := x2 - x1) (fun y => ?_)
      (fun y => alphaZeroClean_flatMap (fun i => scanRGBA64Pixel_length img16 i y)
        (fun i => scanRGBA64Pixel_alpha img16 i y) _) _
    rw [flatMap_length_const (fun i => scanRGBA64Pixel_length img16 i y)]
    simp [Nat.mul_comm]

/-- C7 amended witness: a transparent premultiplied pixel comes out with
zero color bytes. -/
theorem scan_alpha_clean_witness :
    byteAt (scan (.rgba ⟨0, 0, 1, 1, 4, [9, 9, 9, 0]⟩) 0 0 1 1) (4 * 0) = 0
      ∧ byteAt (scan (.rgba ⟨0, 0, 1, 1, 4, [9, 9, 9, 0]⟩) 0 0 1 1) (4 * 0 + 1) = 0
      ∧ byteAt (scan (.rgba ⟨0, 0, 1, 1, 4, [9, 9, 9, 0]⟩) 0 0 1 1) (4 * 0 + 2) = 0 :=
  (scan_alpha_clean_premultiplied ⟨0, 0, 1, 1, 4, [9, 9, 9, 0]⟩ ⟨0, 0, 0, 0, 8, []⟩ 0 0 1 1).1
    0 (by decide)

/-- C3: for every image and every `sigma ≤ 0`, `Blur` and `Sharpen` return
`Clone` of the input (convolution is skipped entirely), and `Clone` of a
canonical NRGBA image is a byte-identical copy. -/
theorem blur_sharpen_identity (src : Source) (sigma : ℝ) (hs : sigma ≤ 0) :
    Blur src sigma = Clone src ∧ Sharpen src sigma = Clone src
      ∧ ∀ img : NRGBA, img.minX = 0 → img.minY = 0 → img.stride = img.w * 4 →
          img.pix.length = img.h * (img.w * 4) → Clone (Source.nrgba img) = img := by
  refine ⟨by rw [Blur, if_pos hs], by rw [Sharpen, if_pos hs], ?_⟩
  intro img h1 h2 h3 h4
  obtain ⟨mx, my, w, h, st, px⟩ := img
  simp only at h1 h2 h3 h4
  subst h1 h2 h3
  unfold Clone
  simp only [srcW, srcH]
  congr 1
  show scanNRGBA _ 0 0 w h = px
  unfold scanNRGBA
  simp only [Nat.sub_zero, Nat.zero_mul, Nat.add_zero, Nat.mul_zero]
  rw [flatMap_take_drop (w * 4) h 0 px]
  simp only [Nat.zero_mul, List.drop_zero]
  exact List.take_of_length_le (le_of_eq h4)

/-- C3 witness at a concrete canonical image and `sigma = -1`. -/
theorem blur_sharpen_identity_witness :
    Blur (Source.nrgba ⟨0, 0, 1, 1, 4, [1, 2, 3, 4]⟩) (-1)
        = Clone (Source.nrgba ⟨0, 0, 1, 1, 4, [1, 2, 3, 4]⟩)
      ∧ Clone (Source.nrgba ⟨0, 0, 1, 1, 4, [1, 2, 3, 4]⟩) = ⟨0, 0, 1, 1, 4, [1, 2, 3, 4]⟩ :=
  ⟨(blur_sharpen_identity _ (-1) (by norm_num)).1,
    (blur_sharpen_identity (Source.nrgba ⟨0, 0, 1, 1, 4, [1, 2, 3, 4]⟩) (-1) (by norm_num)).2.2
      ⟨0, 0, 1, 1, 4, [1, 2, 3, 4]⟩ rfl rfl rfl (by decide)⟩

/-- C10: for every source whose bounds do not start at the origin and every
`sigma > 0`, `Blur` and `Sharpen` return an NRGBA image re-anchored at the
origin with the scanner dimensions of the source. -/
theorem blur_sharpen_reanchor (src : Source) (sigma : ℝ) (hs : 0 < sigma)
    (hmin : srcMinX src ≠ 0 ∨ srcMinY src ≠ 0) :
    ((Blur src sigma).minX = 0 ∧ (Blur src sigma).minY = 0
      ∧ (Blur src sigma).w = srcW src ∧ (Blur src sigma).h = srcH src)
    ∧ ((Sharpen src sigma).minX = 0 ∧ (Sharpen src sigma).minY = 0
      ∧ (Sharpen src sigma).w = srcW src ∧ (Sharpen src sigma).h = srcH src) := by
  have hns : ¬ sigma ≤ 0 := not_le.mpr hs
  constructor
  · simp [Blur, if_neg hns, blurVertical, blurHorizontal, srcW, srcH]
  · simp [Sharpen, if_neg hns]

/-- C10 witness: a source anchored at `(1, 2)`, `sigma = 1`. -/
theorem blur_sharpen_reanchor_witness :
    (Blur (Source.nrgba ⟨1, 2, 1, 1, 4, [1, 2, 3, 4]⟩) 1).minX = 0
      ∧ (Sharpen (Source.nrgba ⟨1, 2, 1, 1, 4, [1, 2, 3, 4]⟩) 1).minX = 0 :=
  ⟨(blur_sharpen_reanchor (Source.nrgba ⟨1, 2, 1, 1, 4, [1, 2, 3, 4]⟩) 1 (by norm_num)
      (Or.inl (by decide))).1.1,
    (blur_sharpen_reanchor (Source.nrgba ⟨1, 2, 1, 1, 4, [1, 2, 3, 4]⟩) 1 (by norm_num)
      (Or.inl (by decide))).2.1⟩

/-- C9: for every `sigma > 0` the kernel has radius `ceil(3*sigma)`, weight
`exp(-i^2/(2*sigma^2)) / (sigma * sqrt(2*pi))` at each distance
`i ∈ [0, radius]`, and `Blur` uses the one kernel for both the horizontal and
the vertical pass. -/
theorem gaussian_kernel_spec (sigma : ℝ) (hs : 0 < sigma) (src : Source) :
    (blurKernel sigma).length = (Int.ceil (3 * sigma)).toNat + 1
      ∧ (∀ i : ℕ, i ≤ (Int.ceil (3 * sigma)).toNat →
          (blurKernel sigma).getD i 0
            = Real.exp (-(i : ℝ) ^ 2 / (2 * sigma ^ 2)) / (sigma * Real.sqrt (2 * Real.pi)))
      ∧ Blur src sigma
          = blurVertical (Source.nrgba (blurHorizontal src (blurKernel sigma)))
              (blurKernel sigma) := by
  have hc : Int.ceil (sigma * 3) = Int.ceil (3 * sigma) := by rw [mul_comm]
  refine ⟨?_, ?_, ?_⟩
  · rw [blurKernel]
    rw [List.length_map, List.length_range', hc]
  · intro i hi
    have hlt : i < (Int.ceil (sigma * 3)).toNat + 1 := by
      rw [hc]
      omega
    rw [blurKernel]
    rw [List.getD_eq_getElem?_getD, List.getElem?_map, List.getElem?_range' 0 1 hlt]
    simp only [Nat.zero_add, Nat.one_mul]
    show gaussianBlurKernel (i : ℝ) sigma = _
    unfold gaussianBlurKernel
    have harg : -((i : ℝ) * i) / (2 * sigma * sigma) = -(i : ℝ) ^ 2 / (2 * sigma ^ 2) := by
      ring
    rw [harg]
  · simp [Blur, if_neg (not_le.mpr hs)]

/-- C9 witness at `sigma = 1`. -/
theorem gaussian_kernel_spec_witness :
    (blurKernel 1).length = (Int.ceil (3 * (1 : ℝ))).toNat + 1 :=
  (gaussian_kernel_spec 1 (by norm_num) (Source.nrgba ⟨0, 0, 1, 1, 4, [1, 2, 3, 4]⟩)).1

/-- C4: for every image and `sigma > 0`, `Sharpen` computes
`blurred = Blur(source, sigma)` and sets every canonical byte position
(all four channels, alpha included) to
`clamp(2*source_byte - blurred_byte, 0, 255)`. -/
theorem sharpen_unsharp_mask (src : Source) (sigma : ℝ) (hs : 0 < sigma) (y i : ℕ)
    (hy : y < srcH src) (hi : i < srcW src * 4) :
    byteAt (Sharpen src sigma).pix (y * (srcW src * 4) + i)
      = (let s := byteAt (scan src 0 y (srcW src) (y + 1)) i
         let b := byteAt (Blur src sigma).pix (y * (srcW src * 4) + i)
         if 2 * (s : ℤ) - (b : ℤ) < 0 then 0
         else if 2 * (s : ℤ) - (b : ℤ) > 255 then 255
         else (2 * (s : ℤ) - (b : ℤ)).toNat) := by
  have hns : ¬ sigma ≤ 0 := not_le.mpr hs
  rw [Sharpen, if_neg hns]
  dsimp only
  rw [byte_extract (c := srcW src * 4)
    (fun j => by rw [List.length_map, List.length_range']) (srcH src) y i hy hi]
  rw [byteAt, List.getD_eq_getElem?_getD, List.getElem?_map, List.getElem?_range' 0 1 hi]
  simp only [Nat.zero_add, Nat.one_mul]
  show sharpenByte _ _ = _
  rw [sharpenByte]

/-- C4 witness at a concrete 1x1 image and `sigma = 1`. -/
theorem sharpen_unsharp_mask_witness :
    byteAt (Sharpen (Source.nrgba ⟨0, 0, 1, 1, 4, [10, 20, 30, 255]⟩) 1).pix (0 * (1 * 4) + 0)
      = (let s := byteAt (scan (Source.nrgba ⟨0, 0, 1, 1, 4, [10, 20, 30, 255]⟩) 0 0 1 (0 + 1)) 0
         let b := byteAt (Blur (Source.nrgba ⟨0, 0, 1, 1, 4, [10, 20, 30, 255]⟩) 1).pix
           (0 * (1 * 4) + 0)
         if 2 * (s : ℤ) - (b : ℤ) < 0 then 0
         else if 2 * (s : ℤ) - (b : ℤ) > 255 then 255
         else (2 * (s : ℤ) - (b : ℤ)).toNat) :=
  sharpen_unsharp_mask (Source.nrgba ⟨0, 0, 1, 1, 4, [10, 20, 30, 255]⟩) 1 (by norm_num) 0 0
    (by decide) (by decide)

theorem blurLinePixel_length {α : Type} [LinearOrderedField α] [FloorRing α] [DecidableEq α]
    (kernel : List α) (line : List ℕ) (n pos : ℕ) :
    (blurLinePixel kernel line n pos).length = 4 := by
  unfold blurLinePixel
  dsimp only
  split <;> rfl

/-- C1: each destination pixel of the blur passes is computed only from
neighbors clamped to the image bounds (indices `max(pos-radius,0)` through
`min(pos+radius, n-1)`, out-of-range neighbors excluded); when the
accumulated weighted alpha `wa` is zero the pixel keeps its initialized zero
value, otherwise the color equals `(wr,wg,wb)/wa` and the alpha equals
`wa/wsum`, with `wsum` the sum of kernel weights over the included neighbors
only (the `clamp` is the byte conversion).  Stated for an arbitrary kernel,
hence for the Gaussian kernel of every `sigma > 0`. -/
theorem blur_pass_pixel {α : Type} [LinearOrderedField α] [FloorRing α] [DecidableEq α]
    (src : Source) (kernel : List α) (x y : ℕ) (hx : x < srcW src) (hy : y < srcH src) :
    (((blurHorizontal src kernel).pix.drop ((y * srcW src + x) * 4)).take 4
        = (let line := scan src 0 y (srcW src) (y + 1)
           let radius := kernel.length - 1
           let lo := x - radius
           let hi := min (x + radius) (srcW src - 1)
           let idxs := List.range' lo (hi + 1 - lo)
           let weight : ℕ → α := fun ix => kernel.getD (absint ((x : ℤ) - (ix : ℤ))) 0
           let wsum : α := (idxs.map fun ix => weight ix).sum
           let wa : α := (idxs.map fun ix => (byteAt line (ix * 4 + 3) : α) * weight ix).sum
           let wr : α := (idxs.map fun ix =>
             (byteAt line (ix * 4) : α) * ((byteAt line (ix * 4 + 3) : α) * weight ix)).sum
           let wg : α := (idxs.map fun ix =>
             (byteAt line (ix * 4 + 1) : α) * ((byteAt line (ix * 4 + 3) : α) * weight ix)).sum
           let wb : α := (idxs.map fun ix =>
             (byteAt line (ix * 4 + 2) : α) * ((byteAt line (ix * 4 + 3) : α) * weight ix)).sum
           if wa = 0 then [0, 0, 0, 0]
           else [clamp (wr * (1 / wa)), clamp (wg * (1 / wa)), clamp (wb * (1 / wa)),
             clamp (wa / wsum)]))
    ∧ (((blurVertical src kernel).pix.drop ((y * srcW src + x) * 4)).take 4
        = (let line := scan src x 0 (x + 1) (srcH src)
           let radius := kernel.length - 1
           let lo := y - radius
           let hi := min (y + radius) (srcH src - 1)
           let idxs := List.range' lo (hi + 1 - lo)
           let weight : ℕ → α := fun iy => kernel.getD (absint ((y : ℤ) - (iy : ℤ))) 0
           let wsum : α := (idxs.map fun iy => weight iy).sum
           let wa : α := (idxs.map fun iy => (byteAt line (iy * 4 + 3) : α) * weight iy).sum
           let wr : α := (idxs.map fun iy =>
             (byteAt line (iy * 4) : α) * ((byteAt line (iy * 4 + 3) : α) * weight iy)).sum
           let wg : α := (idxs.map fun iy =>
             (byteAt line (iy * 4 + 1) : α) * ((byteAt line (iy * 4 + 3) : α) * weight iy)).sum
           let wb : α := (idxs.map fun iy =>
             (byteAt line (iy * 4 + 2) : α) * ((byteAt line (iy * 4 + 3) : α) * weight iy)).sum
           if wa = 0 then [0, 0, 0, 0]
           else [clamp (wr * (1 / wa)), clamp (wg * (1 / wa)), clamp (wb * (1 / wa)),
             clamp (wa / wsum)])) := by
  constructor
  · rw [blurHorizontal]
    dsimp only
    rw [pix_extract
      (fun i j => blurLinePixel_length kernel (scan src 0 j (srcW src) (j + 1)) (srcW src) i)
      0 0 (srcW src) (srcH src) x y hx hy]
    simp only [Nat.zero_add]
    rfl
  · rw [blurVertical]
    dsimp only
    rw [pix_extract
      (fun i j => blurLinePixel_length kernel (scan src i 0 (i + 1) (srcH src)) (srcH src) j)
      0 0 (srcW src) (srcH src) x y hx hy]
    simp only [Nat.zero_add]
    rfl

/-- C1 witness: a concrete 2x1 image and rational kernel, horizontal pass,
pixel (0, 0). -/
theorem blur_pass_pixel_witness :
    ((blurHorizontal (α := ℚ) (Source.nrgba ⟨0, 0, 2, 1, 8, [10, 20, 30, 40, 50, 60, 70, 80]⟩)
        [1 / 2, 1 / 4]).pix.drop ((0 * 2 + 0) * 4)).take 4 = [30, 40, 50, 53] := by
  have h := (blur_pass_pixel (α := ℚ)
    (Source.nrgba ⟨0, 0, 2, 1, 8, [10, 20, 30, 40, 50, 60, 70, 80]⟩)
    [1 / 2, 1 / 4] 0 0 (by decide) (by decide)).1
  refine h.trans ?_
  show blurLinePixel (α := ℚ) [1 / 2, 1 / 4]
      (scan (Source.nrgba ⟨0, 0, 2, 1, 8, [10, 20, 30, 40, 50, 60, 70, 80]⟩) 0 0 2 1) 2 0
      = [30, 40, 50, 53]
  rw [show scan (Source.nrgba ⟨0, 0, 2, 1, 8, [10, 20, 30, 40, 50, 60, 70, 80]⟩) 0 0 2 1
      = [10, 20, 30, 40, 50, 60, 70, 80] from by decide]
  unfold blurLinePixel
  norm_num [byteAt, absint, clamp, List.range']
  decide

theorem findOrientationTag_le8 (bo : ByteOrder) :
    ∀ (n : ℕ) (s : List ℕ), findOrientationTag bo n s ≤ 8 := by
  intro n
  induction n with
  | zero =>
    intro s
    simp [findOrientationTag]
  | succ k ih =>
    intro s
    unfold findOrientationTag
    split
    · omega
    · split
      · split
        · omega
        · exact ih _
      · split
        · omega
        · split
          · omega
          · split <;> omega

theorem readOrientation_le8 (s : List ℕ) : ReadOrientation s ≤ 8 := by
  unfold ReadOrientation
  repeat' split
  any_goals omega
  exact findOrientationTag_le8 _ _ _

theorem readOrientation_fixture (v : ℕ) (h1 : 1 ≤ v) (h2 : v ≤ 8) :
    ReadOrientation (orientFixture v) = v := by
  interval_cases v <;> decide

theorem readOrientation_fixture_trunc (v n : ℕ) (h1 : 1 ≤ v) (h2 : v ≤ 8) (hn : n < 32) :
    ReadOrientation ((orientFixture v).take n) = 0 := by
  revert n
  interval_cases v <;> decide

/-- C2: `ReadOrientation` never surfaces an error (it is a total function
into `[0, 8]`): every short read or validity violation — missing SOI marker,
marker upper byte not 0xff, non-APP1 block size below 2, missing Exif
header, unknown byte-order mark, IFD offset below 8, orientation value
outside `[1, 8]` — yields the sentinel 0; the exact fixture for a value
`v ∈ [1, 8]` parses to `v`; and every proper prefix of such a fixture parses
to 0, never a wrong nonzero value. -/
theorem read_orientation_fail_closed :
    (∀ s : List ℕ, ReadOrientation s ≤ 8)
    ∧ (∀ v, 1 ≤ v → v ≤ 8 → ReadOrientation (orientFixture v) = v)
    ∧ (∀ v n, 1 ≤ v → v ≤ 8 → n < 32 → ReadOrientation ((orientFixture v).take n) = 0)
    ∧ ReadOrientation [255, 225] = 0
    ∧ ReadOrientation [255, 216, 0, 225, 0, 0] = 0
    ∧ ReadOrientation [255, 216, 255, 224, 0, 1] = 0
    ∧ ReadOrientation [255, 216, 255, 225, 0, 255, 0, 0, 0, 0] = 0
    ∧ ReadOrientation
        [255, 216, 255, 225, 0, 255, 69, 120, 105, 102, 0, 0, 0, 0, 0, 42, 0, 0, 0, 8] = 0
    ∧ ReadOrientation
        [255, 216, 255, 225, 0, 255, 69, 120, 105, 102, 0, 0, 77, 77, 0, 42, 0, 0, 0, 7] = 0
    ∧ ReadOrientation (orientFixture 9) = 0 :=
  ⟨readOrientation_le8, readOrientation_fixture, readOrientation_fixture_trunc,
    by decide, by decide, by decide, by decide, by decide, by decide, by decide⟩

/-- C2 witness: the fixture for value 5 parses to 5 and its 17-byte prefix
parses to the sentinel 0. -/
theorem read_orientation_fail_closed_witness :
    ReadOrientation (orientFixture 5) = 5
      ∧ ReadOrientation ((orientFixture 5).take 17) = 0 :=
  ⟨read_orientation_fail_closed.2.1 5 (by decide) (by decide),
    read_orientation_fail_closed.2.2.1 5 17 (by decide) (by decide) (by decide)⟩

/-- C6: decoding with orientation-aware decoding enabled equals decoding
with it disabled followed by `FixOrientation` with the embedded
orientation value; orientation 0 (Unspecified) and 1 (Normal) both apply the
identity transform; and on the fixture stream for each `v ∈ [1, 8]` the
transform applied is exactly the table entry for `v`. -/
theorem decode_pipeline_equiv :
    (∀ (dec : List ℕ → Option NRGBA) (stream : List ℕ),
        Decode dec stream [AutoOrientation true]
          = (Decode dec stream []).map fun img => FixOrientation img (ReadOrientation stream))
    ∧ (∀ img : NRGBA, FixOrientation img 0 = img ∧ FixOrientation img 1 = img)
    ∧ (∀ (dec : List ℕ → Option NRGBA) (v : ℕ), 1 ≤ v → v ≤ 8 →
        Decode dec (orientFixture v) [AutoOrientation true]
          = (dec (orientFixture v)).map fun img => FixOrientation img v) := by
  have hdec : ∀ (dec : List ℕ → Option NRGBA) (stream : List ℕ),
      Decode dec stream [AutoOrientation true]
        = (Decode dec stream []).map fun img => FixOrientation img (ReadOrientation stream) := by
    intro dec stream
    simp only [Decode, decodeWithAutoOrientation, AutoOrientation, defaultDecodeCfg,
      List.foldl_cons, List.foldl_nil]
    cases dec stream <;> rfl
  refine ⟨hdec, fun img => ⟨rfl, rfl⟩, ?_⟩
  intro dec v h1 h2
  rw [hdec dec (orientFixture v), readOrientation_fixture v h1 h2]
  simp only [Decode, defaultDecodeCfg, List.foldl_nil]
  rfl

/-- C6 witness: a concrete decoder and the fixture for orientation 2. -/
theorem decode_pipeline_equiv_witness :
    Decode (fun _ => some ⟨0, 0, 1, 1, 4, [1, 2, 3, 4]⟩) (orientFixture 2) [AutoOrientation true]
      = ((fun _ => some (⟨0, 0, 1, 1, 4, [1, 2, 3, 4]⟩ : NRGBA)) (orientFixture 2)).map
          fun img => FixOrientation img 2 :=
  decode_pipeline_equiv.2.2 (fun _ => some ⟨0, 0, 1, 1, 4, [1, 2, 3, 4]⟩) 2
    (by decide) (by decide)

end Imaging
